import Mathlib

/-!
Verification of the bitcoin_price_oracle pipeline.

Shallow embedding of the Python sources:
  - `src/config.py`     (config file parsing, RPC option generation)
  - `src/bins.py`       (log-spaced histogram: bin edges, binning, normalization)
  - `src/stencil.py`    (round-USD stencil, slide scores, price blending)
  - `src/oscillator.py` (price-day block search)
  - `src/daily_price.py` (date validation)
  - `src/exceptions.py` (distinguished exception classes)

Python floats are modelled as exact rationals (the histogram counts, stencil
weights and scores) or reals (output amounts, which flow through `log10`);
Python ints as `Int`/`Nat`.  Fallible code returns `Except`/`Option`.
-/

namespace Oracle

/-- Errors a pipeline run can surface.  `dailyPriceException`,
`bitcoinConfigException` and `rpcException` are the repository's own
exception classes (src/exceptions.py); `zeroDivisionError` is the Python
builtin raised by `x / 0.0`. -/
inductive PyErr where
  | zeroDivisionError : PyErr
  | dailyPriceException : String → PyErr
  | bitcoinConfigException : String → PyErr
  | rpcException : String → PyErr
  deriving DecidableEq, Repr

/-- An error is distinguished when it is one of the repository's own
exception classes from src/exceptions.py (a Python builtin such as
`ZeroDivisionError` is not). -/
def PyErr.isDistinguished : PyErr → Bool
  | .dailyPriceException _ => true
  | .bitcoinConfigException _ => true
  | .rpcException _ => true
  | .zeroDivisionError => false

/-! ## Config loader (src/config.py) -/

/-- `BitcoinConfig.rpc_options` (src/config.py lines 34-42), verbatim,
including the misspelling `"rpcookiefile"` found in the source. -/
def rpc_options : List String :=
  ["datadir", "rpcuser", "rpcpassword", "rpcookiefile", "rpcconnect",
   "rpcport", "conf"]

/-- Python `str.strip()` on a list of characters. -/
def pyStrip (cs : List Char) : List Char :=
  ((cs.dropWhile (fun c => c.isWhitespace)).reverse.dropWhile
    (fun c => c.isWhitespace)).reverse

/-- One stripped line matched against `^\s*([^#\s=]+)\s*=\s*([^#]+)\s*$`
(src/config.py line 73).  The regex matches exactly when the stripped
line contains no `#`, starts with a nonempty run of non-whitespace
non-`=` characters (the key), followed by optional whitespace, `=`,
optional whitespace, and a nonempty remainder (the value group; greedy,
so it runs to the end of the line).  The key is lowercased and the value
stripped. -/
def parse_config_line (cs : List Char) : Option (String × String) :=
  if cs.any (fun c => c = '#') then none
  else
    let key := cs.takeWhile (fun c => ¬ (c.isWhitespace ∨ c = '='))
    if key.isEmpty then none
    else
      match (cs.drop key.length).dropWhile (fun c => c.isWhitespace) with
      | '=' :: rest =>
        let vcs := rest.dropWhile (fun c => c.isWhitespace)
        if vcs.isEmpty then none
        else some (String.mk (key.map Char.toLower), String.mk (pyStrip vcs))
      | _ => none

/-- Processing of one config-file line into the `self.config` mapping
(src/config.py lines 66-77): the line is stripped, blank lines and lines
starting with `#` are skipped, matched lines store `key ↦ value` (later
lines override). -/
def process_line (config : String → Option String) (raw : String) :
    String → Option String :=
  match pyStrip raw.toList with
  | [] => config
  | c :: cs =>
    if c = '#' then config
    else
      match parse_config_line (c :: cs) with
      | none => config
      | some (k, v) => fun q => if q = k then some v else config q

/-- `BitcoinConfig.generate_options`, branch where the config file exists
(src/config.py lines 63-90): parse every line, then emit `-key=value` for
each key of `rpc_options` present in the parsed mapping. -/
def generate_options (lines : List String) : List String :=
  let config := lines.foldl process_line (fun _ => none)
  rpc_options.filterMap (fun key =>
    (config key).map (fun v => "-" ++ key ++ "=" ++ v))

/-! ## Histogram normalization (src/bins.py) -/

/-- `PriceBins.lower_bound` (src/bins.py line 22). -/
def lower_bound : ℕ := 201

/-- `PriceBins.upper_bound` (src/bins.py line 23). -/
def upper_bound : ℕ := 1601

/-- `PriceBins._set_curve_sum` (src/bins.py lines 233-242): the sum of the
counts over `[lower_bound, upper_bound)`. -/
def curve_sum (counts : ℕ → ℚ) : ℚ :=
  ∑ i in Finset.Ico lower_bound upper_bound, counts i

/-- The pure content of `PriceBins._normalize_curve` (src/bins.py lines
244-256): every entry of `[lower_bound, upper_bound)` is replaced by
`min 0.008 (count / S)` with `S` the pre-normalization window sum; entries
outside the window are untouched. -/
def normalize_curve (counts : ℕ → ℚ) : ℕ → ℚ := fun i =>
  if lower_bound ≤ i ∧ i < upper_bound then
    min 0.008 (counts i / curve_sum counts)
  else counts i

/-- `PriceBins._normalize_curve` with Python's division semantics: each
entry is divided by the window sum, and a zero sum makes the first such
division raise the builtin `ZeroDivisionError`. -/
def normalize_curve_run (counts : ℕ → ℚ) : Except PyErr (ℕ → ℚ) :=
  if curve_sum counts = 0 then .error .zeroDivisionError
  else .ok (normalize_curve counts)

/-! ## Round-USD stencil and slide scores (src/stencil.py) -/

/-- `Bounds.btc_bound` as set in `Stencil.__init__` (src/stencil.py
line 73). -/
def btc_bound : ℕ := 1401

/-- The dense stencil produced by `Stencil._populate_stencil` from
`StencilValues.values` (src/stencil.py lines 76-120): the literal sparse
table, zero elsewhere. -/
def round_usd_stencil : ℕ → ℚ := fun i =>
  if i = 401 then 0.0005957955691168063
  else if i = 402 then 0.0004454790662303128
  else if i = 429 then 0.0001763099393598914
  else if i = 430 then 0.0001851801497144573
  else if i = 461 then 0.0006205616481885794
  else if i = 462 then 0.0005985696860584984
  else if i = 496 then 0.0006919505728046619
  else if i = 497 then 0.0008912933078342840
  else if i = 540 then 0.0009372916238804205
  else if i = 541 then 0.0017125522985034724
  else if i = 600 then 0.0021702347223143030
  else if i = 601 then 0.0037018622326411380
  else if i = 602 then 0.0027322168706743802
  else if i = 603 then 0.0016268322583097678
  else if i = 604 then 0.0012601953416497664
  else if i = 661 then 0.0041425242880295460
  else if i = 662 then 0.0039247767475640830
  else if i = 696 then 0.0032399441632017228
  else if i = 697 then 0.0037112959007355585
  else if i = 740 then 0.0049921908828370000
  else if i = 741 then 0.0070636869018197105
  else if i = 801 then 0.0080000000000000000
  else if i = 802 then 0.0065431388282424440
  else if i = 803 then 0.0044279509203361735
  else if i = 861 then 0.0046132440551747015
  else if i = 862 then 0.0043647851395531140
  else if i = 896 then 0.0031980892880846567
  else if i = 897 then 0.0034237641632481910
  else if i = 939 then 0.0025995335505435034
  else if i = 940 then 0.0032631930982226645
  else if i = 941 then 0.0042753262790881080
  else if i = 1001 then 0.0037699501474772350
  else if i = 1002 then 0.0030872891064215764
  else if i = 1003 then 0.0023237040836798163
  else if i = 1061 then 0.0023671764210889895
  else if i = 1062 then 0.0020106877104798474
  else if i = 1140 then 0.0009099214128654502
  else if i = 1141 then 0.0012008546799361498
  else if i = 1201 then 0.0007862586076341524
  else if i = 1202 then 0.0006900048077192579
  else 0

/-- `Stencil._calculate_slide_score` (src/stencil.py lines 197-218).
The Python code slices `counts[lower_bound+slide : btc_bound+slide]`
(a list of length 2401; for the slides the sweep uses, both slice ends
are in range, the `min` with 2401 models the slice's upper clamp) and
sums `curve * stencil[n + lower_bound]` over the enumerated slice. -/
def calculate_slide_score (counts : ℕ → ℚ) (slide : ℤ) : ℚ :=
  ∑ n in Finset.range ((min ((btc_bound : ℤ) + slide) 2401).toNat -
      ((lower_bound : ℤ) + slide).toNat),
    counts (((lower_bound : ℤ) + slide).toNat + n) *
      round_usd_stencil (n + lower_bound)

/-- The score the spec's formula prescribes: the 1000-term sum
`Σ_{n=0}^{999} counts[lower_bound + s + n] · weights[lower_bound + n]`
(spec §4.3 "Scoring").  Stated from the spec's words, for comparison
with `calculate_slide_score`. -/
def spec_slide_score (counts : ℕ → ℚ) (slide : ℤ) : ℚ :=
  ∑ n in Finset.range 1000,
    counts ((lower_bound : ℤ) + slide + n).toNat *
      round_usd_stencil (lower_bound + n)

/-- The weight computation of `Stencil._calculate_price_estimate`
(src/stencil.py lines 298-306): `avg = total_score / number_of_scores`,
`a1 = best_slide_score - avg`, `a2 = |neighbor_score - avg|`,
`w1 = a1 / (a1 + a2)`, `w2 = a2 / (a1 + a2)`. -/
def price_weights (total_score : ℚ) (number_of_scores : ℤ)
    (best_slide_score neighbor_score : ℚ) : ℚ × ℚ :=
  let avg_score := total_score / (number_of_scores : ℚ)
  let a1 := best_slide_score - avg_score
  let a2 := |neighbor_score - avg_score|
  (a1 / (a1 + a2), a2 / (a1 + a2))

/-! ## Block oscillator (src/oscillator.py) -/

/-- Python's builtin `round`: round half to even. -/
def pyRound (q : ℚ) : ℤ :=
  let f := ⌊q⌋
  let r := q - (f : ℚ)
  if r < 1 / 2 then f
  else if 1 / 2 < r then f + 1
  else if f % 2 = 0 then f else f + 1

/-- `BlockOscillator._block_estimate` (src/oscillator.py lines 120-136):
`round(144 * timestamp / 86400)`.  The float arithmetic is exact up to the
final rounding for all realistic timestamps, so the rational model is
faithful. -/
def block_estimate (timestamp : ℤ) : ℤ :=
  pyRound ((144 * timestamp : ℚ) / 86400)

/-- The iterative phase of `BlockOscillator._block_oscillator`
(src/oscillator.py lines 87-97).  `time h` is the header timestamp the RPC
returns for height `h`; the state carries the height, the current jump and
the two previous jumps, initially both 0.  Fuel bounds the number of RPC
round-trips; exhaustion returns `none`. -/
def osc_loop (time : ℤ → ℤ) (T : ℤ) :
    ℕ → ℤ → ℤ → ℤ → ℤ → Option ℤ
  | 0, _, _, _, _ => none
  | fuel + 1, h, jump, last, last_last =>
    if jump > 6 ∧ jump ≠ last_last then
      let h' := h - jump
      osc_loop time T fuel h' (block_estimate (time h' - T)) jump last
    else some h

/-- The iterative phase as the spec's §4.1 step 3 words it: iterate while
`|jump| > 6` and the current jump differs from the jump two iterations
ago.  Stated from the spec's words, for comparison with `osc_loop`. -/
def spec_osc_loop (time : ℤ → ℤ) (T : ℤ) :
    ℕ → ℤ → ℤ → ℤ → ℤ → Option ℤ
  | 0, _, _, _, _ => none
  | fuel + 1, h, jump, last, last_last =>
    if |jump| > 6 ∧ jump ≠ last_last then
      let h' := h - jump
      spec_osc_loop time T fuel h' (block_estimate (time h' - T)) jump last
    else some h

/-- The downward linear refinement (src/oscillator.py lines 99-106):
while `time h > T`, decrement `h`.  Returns the final height (the caller
adds one). -/
def down_loop (time : ℤ → ℤ) (T : ℤ) : ℕ → ℤ → Option ℤ
  | 0, _ => none
  | fuel + 1, h =>
    if time h > T then down_loop time T fuel (h - 1) else some h

/-- The upward linear refinement (src/oscillator.py lines 108-116):
while `time h < T`, increment `h`, breaking out as soon as the height
reaches the block count `H` (before refetching). -/
def up_loop (time : ℤ → ℤ) (T H : ℤ) : ℕ → ℤ → Option ℤ
  | 0, _ => none
  | fuel + 1, h =>
    if time h < T then
      if h + 1 ≥ H then some (h + 1) else up_loop time T H fuel (h + 1)
    else some h

/-- `BlockOscillator._block_oscillator` (src/oscillator.py lines 69-118):
seed the height from the tip, run the iterative phase, then the linear
refinement.  `T` is `price_day_timestamp`, `H` is `block_count`, `timeH`
is `latest_block_timestamp`. -/
def block_oscillator (time : ℤ → ℤ) (T H timeH : ℤ) (fuel : ℕ) :
    Option ℤ :=
  (osc_loop time T fuel (H - block_estimate (timeH - T))
      (block_estimate (time (H - block_estimate (timeH - T)) - T)) 0 0).bind
    (fun h =>
      if time h > T then (down_loop time T fuel h).map (· + 1)
      else if time h < T then up_loop time T H fuel h
      else some h)

/-! ## Date validation (src/daily_price.py) -/

/-- The Unix timestamp of 2020-07-26T00:00:00Z, the earliest recommended
date (src/daily_price.py line 63). -/
def epoch_2020_07_26 : ℤ := 1595721600

/-- Midnight UTC of the calendar day containing timestamp `t`
(src/daily_price.py lines 120-134 rebuild the tip's UTC date at 00:00:00
and take its timestamp; that is the floor of `t` to a multiple of
86400). -/
def day_start (t : ℤ) : ℤ := 86400 * Int.fdiv t 86400

/-- The two `DailyPriceException` raises guarding a run: the lower date
bound checked in `BitcoinDailyPrice.__init__` (src/daily_price.py lines
59-68) followed by the tip-day check in `_set_current_block` (lines
120-138).  `entered` is the requested day's midnight timestamp, `tip` the
chain tip's header timestamp. -/
def validate_date (entered tip : ℤ) : Except PyErr Unit :=
  if entered < epoch_2020_07_26 then
    .error (.dailyPriceException
      "The date entered is before the earliest recommended date of 2020-07-26...")
  else if day_start tip ≤ entered then
    .error (.dailyPriceException
      "The date entered is not before the current date, please try again...")
  else .ok ()

/-- `BitcoinDailyPrice.run_estimate_price` (src/daily_price.py lines
70-98), with the oscillator/histogram/stencil stages abstracted as
`rest`: validation runs first, and only if it passes does the rest of the
pipeline run. -/
def run_estimate_price (entered tip : ℤ) (rest : Except PyErr ℤ) :
    Except PyErr ℤ :=
  (validate_date entered tip).bind (fun _ => rest)

/-! ## Binning of output amounts (src/bins.py)

Output amounts flow through `math.log10`, so this part of the embedding
lives in `ℝ`.  Float rounding error (≈1e-16 relative) is far below every
margin the proofs rely on (≥1/1200 on the log axis), so the real-number
model is faithful. -/

/-- `PriceBins.first_bin_value` (src/bins.py line 17). -/
def first_bin_value : ℤ := -6

/-- `PriceBins.last_bin_value` (src/bins.py line 18). -/
def last_bin_value : ℤ := 6

/-- `PriceBins.range_bin_values` (src/bins.py line 19). -/
def range_bin_values : ℤ := last_bin_value - first_bin_value

/-- `PriceBins.number_of_bins`: the length of the edge list produced by
`_generate_bin_values` — 12 decades × 200 per decade, plus the zero bin
(src/bins.py lines 66, 92-97). -/
def number_of_bins : ℕ := 2401

/-- The bin-edge list of `PriceBins._generate_bin_values` (src/bins.py
lines 77-97) as a function of the index: `bins 0 = 0` and
`bins i = 10 ^ ((i - 1) / 200 - 6)` for `i ≥ 1`. -/
noncomputable def bins (i : ℕ) : ℝ :=
  if i = 0 then 0 else (10 : ℝ) ^ (((i : ℝ) - 1) / 200 - 6)

/-- Python's `int()` on a float: truncation toward zero. -/
noncomputable def pyTrunc (x : ℝ) : ℤ :=
  if 0 ≤ x then ⌊x⌋ else -⌊-x⌋

/-- `PriceBins._calculate_bin_number_est` (src/bins.py lines 181-192):
`int((amount_log - first_bin_value) / range_bin_values * number_of_bins)`. -/
noncomputable def calculate_bin_number_est (amount_log : ℝ) : ℤ :=
  pyTrunc ((amount_log - (first_bin_value : ℝ)) / (range_bin_values : ℝ) *
    (number_of_bins : ℝ))

open Classical in
/-- The advance loop of `PriceBins._parse_outputs` (src/bins.py lines
173-176): `while bins[est] <= amount: est += 1`, then return `est - 1`.
Indexing a 2401-entry Python list at 2401 raises `IndexError`, modelled
as `none`; the fuel always suffices for the loop's real behaviour. -/
noncomputable def bin_loop (v : ℝ) : ℕ → ℕ → Option ℕ
  | 0, _ => none
  | fuel + 1, est =>
    if number_of_bins ≤ est then none
    else if bins est ≤ v then bin_loop v fuel (est + 1)
    else some (est - 1)

/-- Outcome of presenting one output value to
`PriceBins._parse_outputs`. -/
inductive BinResult where
  | skipped : BinResult
  | indexError : BinResult
  | binned : ℕ → BinResult
  deriving DecidableEq, Repr

open Classical in
/-- `PriceBins._parse_outputs` (src/bins.py lines 152-179): skip unless
`1e-6 < v < 1e6`, otherwise seed the bin estimate from `log10 v` and run
the advance loop; the bin found (or the `IndexError` the loop can hit). -/
noncomputable def parse_outputs (v : ℝ) : BinResult :=
  if 1e-6 < v ∧ v < 1e6 then
    match bin_loop v 2402 (calculate_bin_number_est (Real.logb 10 v)).toNat with
    | none => .indexError
    | some b => .binned b
  else .skipped

/-- `PriceBins._increment_bin_count` (src/bins.py lines 194-204). -/
def bump (counts : ℕ → ℚ) (b : ℕ) : ℕ → ℚ :=
  fun i => if i = b then counts i + 1 else counts i

/-- One step of the output-processing fold of
`PriceBins._get_target_day_blocks` (src/bins.py lines 146-150): a raised
`IndexError` aborts the whole run (`Except.error ()`), otherwise the
output either updates a bin or is skipped. -/
noncomputable def parse_step (acc : Except Unit (ℕ → ℚ)) (v : ℝ) :
    Except Unit (ℕ → ℚ) :=
  match acc with
  | .error e => .error e
  | .ok counts =>
    match parse_outputs v with
    | .skipped => .ok counts
    | .indexError => .error ()
    | .binned b => .ok (bump counts b)

/-- Processing a day's transaction output values in order
(src/bins.py lines 146-150). -/
noncomputable def process_outputs (values : List ℝ) (counts : ℕ → ℚ) :
    Except Unit (ℕ → ℚ) :=
  values.foldl parse_step (.ok counts)

/-! ## Theorems -/

/-- C10: the claim says the recognized option set contains `rpccookiefile`
and that a config line `rpccookiefile=<path>` yields
`-rpccookiefile=<path>`.  The source's `rpc_options` list instead contains
the misspelling `rpcookiefile`, so the correctly spelled line is parsed
into the config mapping but never emitted, while only the misspelled key
(not a Bitcoin Core option) would be emitted.  Evaluating the loader at
the failing input shows the divergence. -/
theorem c10_cookie_option_dropped :
    generate_options ["rpccookiefile=/tmp/cookie"] = [] ∧
    generate_options ["rpcookiefile=/tmp/cookie"] =
      ["-rpcookiefile=/tmp/cookie"] ∧
    "rpccookiefile" ∉ rpc_options ∧ "rpcookiefile" ∈ rpc_options := by
  refine ⟨by rfl, by rfl, by decide, by decide⟩

/-- C7: date validation raises a `DailyPriceException` exactly when the
requested day is strictly before 2020-07-26 or on/after the UTC calendar
day of the chain tip's latest block; the boundary date 2020-07-26 itself
passes; and a passing (resp. failing) validation lets the rest of the
pipeline run (resp. short-circuits it before any histogram work). -/
theorem c7_date_validation (entered tip : ℤ) (rest : Except PyErr ℤ) :
    ((∃ msg, validate_date entered tip =
        .error (.dailyPriceException msg)) ↔
      (entered < epoch_2020_07_26 ∨ day_start tip ≤ entered)) ∧
    (validate_date entered tip = .ok () ↔
      (epoch_2020_07_26 ≤ entered ∧ entered < day_start tip)) ∧
    (validate_date entered tip = .ok () →
      run_estimate_price entered tip rest = rest) ∧
    ((entered < epoch_2020_07_26 ∨ day_start tip ≤ entered) →
      ∃ msg, run_estimate_price entered tip rest =
        .error (.dailyPriceException msg)) := by
  unfold run_estimate_price validate_date
  split_ifs with hlo hhi
  · exact ⟨⟨fun _ => Or.inl hlo, fun _ => ⟨_, rfl⟩⟩,
      iff_of_false (by simp) (by omega),
      fun h => absurd h (by simp), fun _ => ⟨_, rfl⟩⟩
  · exact ⟨⟨fun _ => Or.inr hhi, fun _ => ⟨_, rfl⟩⟩,
      iff_of_false (by simp) (by omega),
      fun h => absurd h (by simp), fun _ => ⟨_, rfl⟩⟩
  · exact ⟨⟨fun ⟨msg, hmsg⟩ => absurd hmsg (by simp),
      fun h => absurd h (by omega)⟩,
      iff_of_true rfl ⟨by omega, by omega⟩,
      fun _ => rfl, fun h => absurd h (by omega)⟩

/-- C7 witness: the boundary date 2020-07-26 is accepted against a tip
two days later, and the pipeline then runs. -/
theorem c7_date_validation_witness :
    validate_date 1595721600 1595894400 = .ok () ∧
    run_estimate_price 1595721600 1595894400 (.ok 11000) = .ok 11000 := by
  have h := c7_date_validation 1595721600 1595894400 (.ok 11000)
  have hok : validate_date 1595721600 1595894400 = .ok () := by
    refine h.2.1.mpr ⟨le_refl _, ?_⟩
    show (1595721600 : ℤ) < 86400 * Int.fdiv 1595894400 86400
    decide
  exact ⟨hok, h.2.2.1 hok⟩

/-- C5: if every windowed count is nonnegative (true of any histogram the
pipeline builds) and the pre-normalization window sum is positive, then
after `_normalize_curve` every windowed entry lies in `[0, 0.008]` and the
window sums to at most 1. -/
theorem c5_normalize_bounds (counts : ℕ → ℚ)
    (hpos : ∀ i ∈ Finset.Ico lower_bound upper_bound, 0 ≤ counts i)
    (hS : 0 < curve_sum counts) :
    (∀ i ∈ Finset.Ico lower_bound upper_bound,
      0 ≤ normalize_curve counts i ∧ normalize_curve counts i ≤ 0.008) ∧
    (∑ i in Finset.Ico lower_bound upper_bound,
      normalize_curve counts i) ≤ 1 := by
  constructor
  · intro i hi
    have hi' := Finset.mem_Ico.mp hi
    rw [normalize_curve, if_pos hi']
    refine ⟨le_min (by norm_num) (div_nonneg (hpos i hi) hS.le),
      min_le_left _ _⟩
  · have h1 : (∑ i in Finset.Ico lower_bound upper_bound,
        normalize_curve counts i) ≤
        ∑ i in Finset.Ico lower_bound upper_bound,
          counts i / curve_sum counts := by
      refine Finset.sum_le_sum fun i hi => ?_
      rw [normalize_curve, if_pos (Finset.mem_Ico.mp hi)]
      exact min_le_right _ _
    have h2 : (∑ i in Finset.Ico lower_bound upper_bound,
        counts i / curve_sum counts) = 1 := by
      rw [← Finset.sum_div, ← curve_sum, div_self hS.ne']
    exact h1.trans h2.le

/-- C5 witness: a histogram with a single windowed spike of mass 2. -/
theorem c5_normalize_witness :
    (∀ i ∈ Finset.Ico lower_bound upper_bound,
      0 ≤ normalize_curve (fun i => if i = 300 then (2:ℚ) else 0) i ∧
      normalize_curve (fun i => if i = 300 then (2:ℚ) else 0) i ≤ 0.008) ∧
    (∑ i in Finset.Ico lower_bound upper_bound,
      normalize_curve (fun i => if i = 300 then (2:ℚ) else 0) i) ≤ 1 := by
  have hsum : curve_sum (fun i => if i = 300 then (2:ℚ) else 0) = 2 := by
    rw [curve_sum, Finset.sum_ite_eq' (Finset.Ico lower_bound upper_bound)
      300 (fun _ => (2:ℚ))]
    rw [if_pos]
    exact Finset.mem_Ico.mpr (by norm_num [lower_bound, upper_bound])
  exact c5_normalize_bounds _
    (fun i _ => by by_cases h : i = 300 <;> simp [h])
    (by rw [hsum]; norm_num)

/-- C8 counterexample: with an all-zero window the normalization step
fails with the builtin `ZeroDivisionError`, which is not one of the
repository's distinguished exceptions — there is no `LogicError` in the
code, contrary to the claim. -/
theorem c8_no_distinguished_error :
    normalize_curve_run (fun _ => (0:ℚ)) = .error .zeroDivisionError ∧
    PyErr.isDistinguished .zeroDivisionError = false := by
  refine ⟨?_, rfl⟩
  rw [normalize_curve_run, if_pos]
  rw [curve_sum]
  exact Finset.sum_const_zero

/-- C8 (amended): whenever every windowed count is zero at normalization
time, the pipeline fails with the undistinguished builtin
`ZeroDivisionError` (the division by the zero window sum), not with a
distinguished internal-invariant error. -/
theorem c8_empty_window_zero_division (counts : ℕ → ℚ)
    (hz : ∀ i ∈ Finset.Ico lower_bound upper_bound, counts i = 0) :
    normalize_curve_run counts = .error .zeroDivisionError := by
  rw [normalize_curve_run, if_pos]
  rw [curve_sum]
  exact Finset.sum_eq_zero hz

/-- C8 witness: the amended statement applied to the all-zero histogram. -/
theorem c8_empty_window_witness :
    normalize_curve_run (fun i => (0:ℚ) * i) = .error .zeroDivisionError :=
  c8_empty_window_zero_division _ (fun _ _ => zero_mul _)

/-- C6 counterexample: a sweep outcome (realizable as 397 scores of 1,
one best score 6/5 and two zero neighbor scores, so `total = 1991/5`,
`number_of_scores = 400`, `best = 6/5`, `neighbor = 0`) for which
`a1 + a2 > 0` yet `w1 < 1/2`, refuting `w1 ≥ 0.5`. -/
theorem c6_weight_half_counterexample :
    (List.replicate 397 (1:ℚ) ++ [6/5, 0, 0]).sum = 1991/5 ∧
    (List.replicate 397 (1:ℚ) ++ [6/5, 0, 0]).length = 400 ∧
    0 < ((6/5 : ℚ) - 1991/5 / ((400:ℤ):ℚ)) + |0 - 1991/5 / ((400:ℤ):ℚ)| ∧
    (price_weights (1991/5) 400 (6/5) 0).1 < 1/2 := by
  refine ⟨?_,
    by rw [List.length_append, List.length_replicate]; rfl, ?_, ?_⟩
  · rw [List.sum_append, List.sum_replicate]
    simp only [List.sum_cons, List.sum_nil, smul_eq_mul]
    norm_num
  · rw [show |0 - 1991/5 / ((400:ℤ):ℚ)| = 1991/2000 by
      rw [abs_of_nonpos (by norm_num)]; norm_num]
    norm_num
  · rw [price_weights]
    rw [show |0 - 1991/5 / ((400:ℤ):ℚ)| = 1991/2000 by
      rw [abs_of_nonpos (by norm_num)]; norm_num]
    norm_num

/-- C6 (amended): whenever `a1 + a2 > 0` the blending weights sum to 1,
and `w1 ≥ 1/2` holds under the additional hypothesis that the neighbor
score lies between the average and the best score (the regime the spec's
parenthetical `a₁ ≥ a₂ only when best ≥ neighbor` implicitly assumes). -/
theorem c6_blend_weights (total : ℚ) (n : ℤ) (best neighbor : ℚ)
    (hpos : 0 < (best - total / (n:ℚ)) + |neighbor - total / (n:ℚ)|) :
    (price_weights total n best neighbor).1 +
      (price_weights total n best neighbor).2 = 1 ∧
    (total / (n:ℚ) ≤ neighbor → neighbor ≤ best →
      1/2 ≤ (price_weights total n best neighbor).1) := by
  rw [price_weights]
  constructor
  · rw [div_add_div_same, div_self hpos.ne']
  · intro h1 h2
    rw [abs_of_nonneg (by linarith)] at hpos ⊢
    rw [le_div_iff₀ hpos]
    linarith

/-- C6 witness: weights at a sweep outcome with the neighbor above the
average. -/
theorem c6_blend_weights_witness :
    (price_weights 400 400 2 (3/2)).1 + (price_weights 400 400 2 (3/2)).2 = 1 ∧
    1/2 ≤ (price_weights 400 400 2 (3/2)).1 := by
  have h := c6_blend_weights 400 400 2 (3/2)
    (by rw [show |(3/2 : ℚ) - 400 / ((400:ℤ):ℚ)| = 1/2 by
          rw [abs_of_nonneg (by norm_num)]; norm_num]
        norm_num)
  exact ⟨h.1, h.2 (by norm_num) (by norm_num)⟩

/-- For slides in the sweep range the slice has exactly 1200 elements,
so the slide score is the 1200-term cross-correlation sum. -/
theorem slide_score_eq_sum1200 (counts : ℕ → ℚ) (slide : ℤ)
    (h1 : -200 ≤ slide) (h2 : slide < 200) :
    calculate_slide_score counts slide =
      ∑ n in Finset.range 1200,
        counts (((lower_bound : ℤ) + slide + n).toNat) *
          round_usd_stencil (n + lower_bound) := by
  rw [calculate_slide_score]
  have hlen : (min ((btc_bound : ℤ) + slide) 2401).toNat -
      ((lower_bound : ℤ) + slide).toNat = 1200 := by
    simp only [lower_bound, btc_bound]
    omega
  rw [hlen]
  refine Finset.sum_congr rfl fun n _ => ?_
  have harg : ((lower_bound : ℤ) + slide).toNat + n =
      ((lower_bound : ℤ) + slide + n).toNat := by
    simp only [lower_bound]
    omega
  rw [harg]

/-- C2 (amended): for every shift in `[-200, 200)` the slide score is the
1200-term sum over `n = 0..1199` of
`counts[lower_bound + s + n] * weights[lower_bound + n]` — the window
`[lower_bound, btc_bound) = [201, 1401)` holds 1200 bins, not 1000. -/
theorem c2_slide_score_is_1200_term_sum (counts : ℕ → ℚ) (slide : ℤ)
    (h1 : -200 ≤ slide) (h2 : slide < 200) :
    calculate_slide_score counts slide =
      ∑ n in Finset.range 1200,
        counts (((lower_bound : ℤ) + slide + n).toNat) *
          round_usd_stencil (n + lower_bound) :=
  slide_score_eq_sum1200 counts slide h1 h2

/-- C2 witness: the 1200-term form at the all-ones histogram, shift 0. -/
theorem c2_slide_score_witness :
    calculate_slide_score (fun _ => 1) 0 =
      ∑ n in Finset.range 1200,
        (fun _ => (1:ℚ)) (((lower_bound : ℤ) + 0 + n).toNat) *
          round_usd_stencil (n + lower_bound) :=
  c2_slide_score_is_1200_term_sum (fun _ => 1) 0 (by norm_num) (by norm_num)

/-- C2 counterexample: a histogram whose only mass sits at bin 1201.
At shift 0 the code's score picks up `weights[1201] ≠ 0` (term
`n = 1000` of the 1200-term slice), while the spec's 1000-term sum stops
at `n = 999` and evaluates to 0, so the claimed equality fails. -/
theorem c2_thousand_term_counterexample :
    calculate_slide_score (fun i => if i = 1201 then 1 else 0) 0 ≠
      spec_slide_score (fun i => if i = 1201 then 1 else 0) 0 := by
  have hL : calculate_slide_score (fun i => if i = 1201 then 1 else 0) 0 =
      round_usd_stencil 1201 := by
    rw [slide_score_eq_sum1200 _ 0 (by norm_num) (by norm_num)]
    have hpt : ∀ n ∈ Finset.range 1200,
        (fun i => if i = 1201 then (1:ℚ) else 0)
            (((lower_bound : ℤ) + 0 + n).toNat) *
          round_usd_stencil (n + lower_bound) =
        if n = 1000 then round_usd_stencil (n + lower_bound) else 0 := by
      intro n _
      dsimp only
      by_cases h : n = 1000
      · subst h
        rw [if_pos rfl, if_pos (by simp only [lower_bound]; omega), one_mul]
      · rw [if_neg h, if_neg (by simp only [lower_bound]; omega), zero_mul]
    rw [Finset.sum_congr rfl hpt, Finset.sum_ite_eq' (Finset.range 1200)
      1000 (fun n => round_usd_stencil (n + lower_bound))]
    rw [if_pos (Finset.mem_range.mpr (by norm_num))]
    rw [show 1000 + lower_bound = 1201 from rfl]
  have hR : spec_slide_score (fun i => if i = 1201 then 1 else 0) 0 = 0 := by
    rw [spec_slide_score]
    refine Finset.sum_eq_zero fun n hn => ?_
    have hn' := Finset.mem_range.mp hn
    rw [if_neg (by simp only [lower_bound]; omega), zero_mul]
  rw [hL, hR]
  rw [show round_usd_stencil 1201 = 0.0007862586076341524 from rfl]
  norm_num

/-- The iterative phase returns the entry height untouched whenever the
code's guard fails, whatever fuel remains. -/
theorem osc_loop_exit (time : ℤ → ℤ) (T : ℤ) (fuel : ℕ)
    (h jump last llast : ℤ) (hfuel : fuel ≠ 0)
    (hg : ¬ (jump > 6 ∧ jump ≠ llast)) :
    osc_loop time T fuel h jump last llast = some h := by
  cases fuel with
  | zero => exact absurd rfl hfuel
  | succ n => rw [osc_loop, if_neg hg]

/-- One iteration of the spec-worded loop under its guard. -/
theorem spec_osc_loop_step (time : ℤ → ℤ) (T : ℤ) (fuel : ℕ)
    (h jump last llast : ℤ) (hg : |jump| > 6 ∧ jump ≠ llast) :
    spec_osc_loop time T (fuel + 1) h jump last llast =
      spec_osc_loop time T fuel (h - jump)
        (block_estimate (time (h - jump) - T)) jump last := by
  rw [spec_osc_loop, if_pos hg]

/-- The spec-worded loop exits when its guard fails. -/
theorem spec_osc_loop_exit (time : ℤ → ℤ) (T : ℤ) (fuel : ℕ)
    (h jump last llast : ℤ) (hfuel : fuel ≠ 0)
    (hg : ¬ (|jump| > 6 ∧ jump ≠ llast)) :
    spec_osc_loop time T fuel h jump last llast = some h := by
  cases fuel with
  | zero => exact absurd rfl hfuel
  | succ n => rw [spec_osc_loop, if_neg hg]

/-- C3 (amended): the iterative phase repeats its step exactly while the
signed jump exceeds 6 and differs from the jump two iterations ago; a
negative jump of any magnitude exits the loop at once (no absolute
value is taken). -/
theorem c3_osc_loop_signed_guard (time : ℤ → ℤ) (T : ℤ) (fuel : ℕ)
    (h jump last llast : ℤ) :
    (¬ (jump > 6 ∧ jump ≠ llast) →
      osc_loop time T (fuel + 1) h jump last llast = some h) ∧
    (jump > 6 ∧ jump ≠ llast →
      osc_loop time T (fuel + 1) h jump last llast =
        osc_loop time T fuel (h - jump)
          (block_estimate (time (h - jump) - T)) jump last) := by
  constructor
  · intro hg
    rw [osc_loop, if_neg hg]
  · intro hg
    rw [osc_loop, if_pos hg]

/-- C3 witness: a jump of `-10` (so the signed guard fails) exits at once
with the height unchanged. -/
theorem c3_osc_loop_witness :
    osc_loop (fun x => 600 * x) 0 (4 + 1) 7 (-10) 0 0 = some 7 :=
  (c3_osc_loop_signed_guard (fun x => 600 * x) 0 4 7 (-10) 0 0).1
    (by norm_num)

/-- C3 counterexample: at `jump = -10` the spec's guard `|jump| > 6 ∧
jump ≠ jump₋₂` holds, yet the code's loop exits immediately with the
entry height, while the loop as the spec words it would run the body
(`h ← h − jump`) and land elsewhere. -/
theorem c3_negative_jump_counterexample :
    (|(-10 : ℤ)| > 6 ∧ (-10 : ℤ) ≠ 0) ∧
    osc_loop (fun x => 600 * x) 0 5 (-10) (-10) 0 0 = some (-10) ∧
    spec_osc_loop (fun x => 600 * x) 0 5 (-10) (-10) 0 0 = some 0 := by
  refine ⟨by norm_num, osc_loop_exit _ _ _ _ _ _ _ (by norm_num)
    (by norm_num), ?_⟩
  show spec_osc_loop (fun x => 600 * x) 0 (4 + 1) (-10) (-10) 0 0 = some 0
  rw [spec_osc_loop_step _ _ _ _ _ _ _ (by norm_num)]
  rw [show (-10 : ℤ) - (-10) = 0 by norm_num]
  rw [show block_estimate ((fun x => (600:ℤ) * x) 0 - 0) = 0 by
    norm_num [block_estimate, pyRound]]
  exact spec_osc_loop_exit _ _ _ _ _ _ _ (by norm_num) (by norm_num)

/-- Bin increments commute. -/
theorem bump_comm (f : ℕ → ℚ) (b c : ℕ) :
    bump (bump f b) c = bump (bump f c) b := by
  by_cases hbc : b = c
  · subst hbc
    rfl
  · funext i
    simp only [bump]
    by_cases h1 : i = b
    · subst h1
      simp [hbc]
    · by_cases h2 : i = c
      · subst h2
        simp [h1]
      · simp [h1, h2]

/-- Processing two outputs in either order yields the same accumulator
(including the aborted state when one of them raises). -/
theorem parse_step_comm (acc : Except Unit (ℕ → ℚ)) (v w : ℝ) :
    parse_step (parse_step acc v) w = parse_step (parse_step acc w) v := by
  cases acc with
  | error e => rfl
  | ok counts =>
    rcases hv : parse_outputs v with _ | _ | b <;>
      rcases hw : parse_outputs w with _ | _ | c <;>
        simp [parse_step, hv, hw, bump_comm]

/-- Folding the parse step over a list is invariant under permutation. -/
theorem process_foldl_perm {l₁ l₂ : List ℝ} (hp : l₁.Perm l₂) :
    ∀ acc, l₁.foldl parse_step acc = l₂.foldl parse_step acc := by
  induction hp with
  | nil => intro acc; rfl
  | cons x p ih =>
    intro acc
    simp only [List.foldl_cons]
    exact ih _
  | swap x y l =>
    intro acc
    simp only [List.foldl_cons]
    rw [parse_step_comm]
  | trans p q ih1 ih2 =>
    intro acc
    rw [ih1, ih2]

/-- C9: presenting the day's output values in any permutation produces
the identical final histogram counts (bin increments commute, and an
`IndexError` aborts the run in either order). -/
theorem c9_histogram_perm_invariant (l₁ l₂ : List ℝ) (counts : ℕ → ℚ)
    (hp : l₁.Perm l₂) :
    process_outputs l₁ counts = process_outputs l₂ counts :=
  process_foldl_perm hp _

/-- C9 witness: swapping two concrete outputs. -/
theorem c9_histogram_perm_witness :
    process_outputs [2, 3] (fun _ => 0) =
      process_outputs [3, 2] (fun _ => 0) :=
  c9_histogram_perm_invariant _ _ _ (List.Perm.swap 3 2 [])

/-- Unfolding the downward refinement while its guard holds. -/
theorem down_loop_step (time : ℤ → ℤ) (T : ℤ) (fuel : ℕ) (h : ℤ)
    (hfuel : fuel ≠ 0) (hc : time h > T) :
    down_loop time T fuel h = down_loop time T (fuel - 1) (h - 1) := by
  cases fuel with
  | zero => exact absurd rfl hfuel
  | succ n => rw [down_loop, if_pos hc, Nat.add_sub_cancel]

/-- The downward refinement exits when its guard fails. -/
theorem down_loop_exit (time : ℤ → ℤ) (T : ℤ) (fuel : ℕ) (h : ℤ)
    (hfuel : fuel ≠ 0) (hc : ¬ time h > T) :
    down_loop time T fuel h = some h := by
  cases fuel with
  | zero => exact absurd rfl hfuel
  | succ n => rw [down_loop, if_neg hc]

/-- On a chain with nondecreasing timestamps, if `hstar` is the crossing
(`time (hstar-1) < T < time hstar`), the downward refinement started at
or above `hstar - 1` can only stop at `hstar - 1`. -/
theorem down_loop_spec (time : ℤ → ℤ) (T hstar : ℤ) (hmono : Monotone time)
    (hbelow : time (hstar - 1) < T) (habove : T < time hstar) :
    ∀ fuel (h r : ℤ), hstar - 1 ≤ h → down_loop time T fuel h = some r →
      r = hstar - 1 := by
  intro fuel
  induction fuel with
  | zero =>
    intro h r _ hd
    exact absurd hd (by rw [down_loop]; simp)
  | succ n ih =>
    intro h r hge hd
    rw [down_loop] at hd
    by_cases hc : time h > T
    · rw [if_pos hc] at hd
      refine ih (h - 1) r ?_ hd
      have : ¬ h ≤ hstar - 1 :=
        fun hle => absurd hc (not_lt.mpr ((hmono hle).trans hbelow.le))
      omega
    · rw [if_neg hc] at hd
      have hr : r = h := (Option.some.inj hd).symm
      have : ¬ hstar ≤ h := fun hle => absurd (habove.trans_le (hmono hle)) hc
      omega

/-- On a chain with nondecreasing timestamps, if `hstar` is the crossing
and lies strictly below the tip height `H`, the upward refinement started
at or below `hstar` can only stop at `hstar`. -/
theorem up_loop_spec (time : ℤ → ℤ) (T H hstar : ℤ) (hmono : Monotone time)
    (hbelow : time (hstar - 1) < T) (habove : T < time hstar)
    (hH : hstar < H) :
    ∀ fuel (h r : ℤ), h ≤ hstar → up_loop time T H fuel h = some r →
      r = hstar := by
  intro fuel
  induction fuel with
  | zero =>
    intro h r _ hd
    exact absurd hd (by rw [up_loop]; simp)
  | succ n ih =>
    intro h r hle hd
    rw [up_loop] at hd
    by_cases hc : time h < T
    · rw [if_pos hc] at hd
      have hne : h ≠ hstar :=
        fun he => absurd hc (by rw [he]; exact not_lt.mpr habove.le)
      rw [if_neg (by omega : ¬ h + 1 ≥ H)] at hd
      exact ih (h + 1) r (by omega) hd
    · rw [if_neg hc] at hd
      have hr : r = h := (Option.some.inj hd).symm
      have : ¬ h ≤ hstar - 1 :=
        fun hle' => absurd ((hmono hle').trans_lt hbelow) hc
      omega

/-- C4 (amended): on a chain with nondecreasing header timestamps, if a
height `hstar` below the tip satisfies `time (hstar-1) < T` and
`T < time hstar` (strictly — no block stamped exactly at midnight), then
whenever the oscillator returns a height it returns exactly `hstar`. -/
theorem c4_oscillator_returns_crossing (time : ℤ → ℤ) (T H timeH : ℤ)
    (fuel : ℕ) (hstar r : ℤ) (hmono : Monotone time)
    (hbelow : time (hstar - 1) < T) (habove : T < time hstar)
    (htip : hstar < H)
    (hrun : block_oscillator time T H timeH fuel = some r) : r = hstar := by
  rw [block_oscillator] at hrun
  rcases hosc : osc_loop time T fuel (H - block_estimate (timeH - T))
      (block_estimate (time (H - block_estimate (timeH - T)) - T)) 0 0 with
    _ | h
  · rw [hosc] at hrun
    exact absurd hrun (by simp)
  · rw [hosc, Option.some_bind] at hrun
    by_cases h1 : time h > T
    · rw [if_pos h1] at hrun
      rcases Option.map_eq_some'.mp hrun with ⟨a, ha, har⟩
      have hstart : hstar - 1 ≤ h := by
        have : ¬ h ≤ hstar - 1 :=
          fun hle => absurd h1 (not_lt.mpr ((hmono hle).trans hbelow.le))
        omega
      have := down_loop_spec time T hstar hmono hbelow habove fuel h a
        hstart ha
      omega
    · rw [if_neg h1] at hrun
      by_cases h2 : time h < T
      · rw [if_pos h2] at hrun
        refine up_loop_spec time T H hstar hmono hbelow habove htip fuel
          h r ?_ hrun
        have : ¬ hstar ≤ h :=
          fun hle => absurd (habove.trans_le (hmono hle)) h1
        omega
      · rw [if_neg h2] at hrun
        exfalso
        by_cases hcase : h ≤ hstar - 1
        · exact absurd ((hmono hcase).trans_lt hbelow) h2
        · exact absurd (habove.trans_le (hmono (by omega : hstar ≤ h))) h1

/-- C4 counterexample: on the nondecreasing chain `time h = 300·h` with
`T = 300000`, the crossing demanded by the claim exists at `hstar = 1000`
(`time 1000 = 300000 ≥ T`, `time 999 < T`), yet the oscillator returns
1001 — and the returned height itself violates the claimed property,
since `time (1001 - 1) = 300000` is not `< T`.  The root cause is the
block stamped exactly at midnight: the downward refinement stops at the
first height with `time ≤ T` and adds one. -/
theorem c4_exact_midnight_counterexample :
    block_oscillator (fun h => 300 * h) 300000 1002 300600 10 =
      some 1001 ∧
    (300 : ℤ) * 1000 ≥ 300000 ∧ (300 : ℤ) * 999 < 300000 ∧
    (1001 : ℤ) ≠ 1000 ∧ ¬ ((300 : ℤ) * (1001 - 1) < 300000) := by
  refine ⟨?_, by norm_num, by norm_num, by norm_num, by norm_num⟩
  rw [block_oscillator]
  rw [show (300600 : ℤ) - 300000 = 600 from by norm_num]
  rw [show block_estimate 600 = 1 from by norm_num [block_estimate, pyRound]]
  rw [show (1002 : ℤ) - 1 = 1001 from by norm_num]
  rw [show (fun h => (300 : ℤ) * h) 1001 - 300000 = 300 from by norm_num]
  rw [show block_estimate 300 = 0 from by norm_num [block_estimate, pyRound]]
  rw [osc_loop_exit _ _ _ _ _ _ _ (by norm_num) (by norm_num)]
  rw [Option.some_bind]
  rw [if_pos (by norm_num : (fun h => (300 : ℤ) * h) 1001 > 300000)]
  rw [down_loop_step _ _ _ _ (by norm_num) (by norm_num)]
  rw [show (1001 : ℤ) - 1 = 1000 from by norm_num]
  rw [down_loop_exit _ _ _ _ (by norm_num) (by norm_num)]
  rfl

/-- C4 witness: on the nondecreasing chain `time h = 300·h + 100` with
`T = 300000` (no block exactly at midnight) the oscillator terminates and
the amended theorem pins its output to the crossing `hstar = 1000`. -/
theorem c4_oscillator_witness :
    Monotone (fun h : ℤ => 300 * h + 100) ∧
    block_oscillator (fun h => 300 * h + 100) 300000 1002 300700 10 =
      some 1000 ∧
    (1000 : ℤ) = 1000 := by
  have hmono : Monotone (fun h : ℤ => 300 * h + 100) :=
    fun a b hab => by dsimp only; omega
  have hrun : block_oscillator (fun h => 300 * h + 100) 300000 1002
      300700 10 = some 1000 := by
    rw [block_oscillator]
    rw [show (300700 : ℤ) - 300000 = 700 from by norm_num]
    rw [show block_estimate 700 = 1 from by
      norm_num [block_estimate, pyRound]]
    rw [show (1002 : ℤ) - 1 = 1001 from by norm_num]
    rw [show (fun h => (300 : ℤ) * h + 100) 1001 - 300000 = 400 from by
      norm_num]
    rw [show block_estimate 400 = 1 from by
      norm_num [block_estimate, pyRound]]
    rw [osc_loop_exit _ _ _ _ _ _ _ (by norm_num) (by norm_num)]
    rw [Option.some_bind]
    rw [if_pos (by norm_num : (fun h => (300 : ℤ) * h + 100) 1001 > 300000)]
    rw [down_loop_step _ _ _ _ (by norm_num) (by norm_num)]
    rw [show (1001 : ℤ) - 1 = 1000 from by norm_num]
    rw [show (10 : ℕ) - 1 = 9 from rfl]
    rw [down_loop_step _ _ _ _ (by norm_num) (by norm_num)]
    rw [show (1000 : ℤ) - 1 = 999 from by norm_num]
    rw [down_loop_exit _ _ _ _ (by norm_num) (by norm_num)]
    rfl
  exact ⟨hmono, hrun,
    c4_oscillator_returns_crossing _ 300000 1002 300700 10 1000 1000 hmono
      (by norm_num) (by norm_num) (by norm_num) hrun⟩

/-- Python `int()` agrees with the floor on nonnegative arguments. -/
theorem pyTrunc_of_nonneg (x : ℝ) (hx : 0 ≤ x) : pyTrunc x = ⌊x⌋ :=
  if_pos hx

/-- A nonzero bin edge compares to `v` through the log axis. -/
theorem bins_le_iff (v : ℝ) (hv : 0 < v) (i : ℕ) (hi : i ≠ 0) :
    bins i ≤ v ↔ ((i : ℝ) - 1) / 200 - 6 ≤ Real.logb 10 v := by
  rw [bins, if_neg hi]
  exact (Real.le_logb_iff_rpow_le (by norm_num) hv).symm

/-- `v` lies strictly below a nonzero bin edge iff its log does. -/
theorem lt_bins_iff (v : ℝ) (hv : 0 < v) (i : ℕ) (hi : i ≠ 0) :
    v < bins i ↔ Real.logb 10 v < ((i : ℝ) - 1) / 200 - 6 := by
  rw [bins, if_neg hi]
  exact (Real.logb_lt_iff_lt_rpow (by norm_num) hv).symm

/-- The seed estimate in closed floor form (the argument is nonnegative
whenever the log is at least `-6`, which the outer guard ensures). -/
theorem seed_eq (l : ℝ) (hl : -6 ≤ l) :
    calculate_bin_number_est l = ⌊(l + 6) / 12 * 2401⌋ := by
  have harg : (l - ((first_bin_value : ℤ) : ℝ)) /
      ((range_bin_values : ℤ) : ℝ) * ((number_of_bins : ℕ) : ℝ) =
      (l + 6) / 12 * 2401 := by
    simp only [first_bin_value, range_bin_values, last_bin_value,
      number_of_bins]
    push_cast
    ring
  rw [calculate_bin_number_est, harg, pyTrunc_of_nonneg _
    (mul_nonneg (div_nonneg (by linarith) (by norm_num)) (by norm_num))]

/-- The advance loop, started at or below the least over-shooting edge
`j`, stops exactly there and returns `j - 1`. -/
theorem bin_loop_some (v : ℝ) (j : ℕ) (hj : j < number_of_bins)
    (hgt : v < bins j) (hall : ∀ i, i < j → bins i ≤ v) :
    ∀ fuel est, est ≤ j → j - est < fuel →
      bin_loop v fuel est = some (j - 1) := by
  intro fuel
  induction fuel with
  | zero =>
    intro est h1 h2
    omega
  | succ n ih =>
    intro est h1 h2
    rw [bin_loop]
    rw [if_neg (by omega : ¬ number_of_bins ≤ est)]
    by_cases he : est = j
    · subst he
      rw [if_neg (not_le.mpr hgt)]
    · rw [if_pos (hall est (by omega))]
      exact ih (est + 1) (by omega) (by omega)

/-- If every edge of the list is at most `v`, the advance loop runs off
the end of the 2401-entry list: an `IndexError`. -/
theorem bin_loop_none (v : ℝ)
    (hall : ∀ i, i < number_of_bins → bins i ≤ v) :
    ∀ fuel est, number_of_bins - est < fuel → bin_loop v fuel est = none := by
  intro fuel
  induction fuel with
  | zero =>
    intro est h
    omega
  | succ n ih =>
    intro est h
    rw [bin_loop]
    by_cases hb : number_of_bins ≤ est
    · rw [if_pos hb]
    · rw [if_neg hb, if_pos (hall est (by omega))]
      exact ih (est + 1) (by omega)

/-- The last bin edge, `10^(1199/200) ≈ 988553.09`, is below 999999. -/
theorem last_edge_le : (10 : ℝ) ^ ((1199 : ℝ) / 200) ≤ 999999 := by
  have hpow : ((10 : ℝ) ^ ((1199 : ℝ) / 200)) ^ (200 : ℕ) =
      (10 : ℝ) ^ (1199 : ℕ) := by
    rw [← Real.rpow_natCast ((10 : ℝ) ^ ((1199 : ℝ) / 200)) 200,
      ← Real.rpow_mul (by norm_num : (0 : ℝ) ≤ 10)]
    rw [show (1199 : ℝ) / 200 * ((200 : ℕ) : ℝ) = ((1199 : ℕ) : ℝ) by
      push_cast; ring]
    rw [Real.rpow_natCast]
  refine le_of_pow_le_pow_left₀ (by norm_num : (200 : ℕ) ≠ 0)
    (by norm_num : (0 : ℝ) ≤ 999999) ?_
  rw [hpow]
  norm_num

/-- C1 (amended): for `10⁻⁶ < v < 10^(1199/200)` (the last bin edge) the
binning routine returns a bin `b` with `bins b ≤ v < bins (b+1)`. -/
theorem c1_bin_search_correct_below_top_edge (v : ℝ)
    (h1 : (1e-6 : ℝ) < v) (h2 : v < (10 : ℝ) ^ ((1199 : ℝ) / 200)) :
    ∃ b, parse_outputs v = .binned b ∧ bins b ≤ v ∧ v < bins (b + 1) := by
  have hv : 0 < v := lt_trans (by norm_num) h1
  set l := Real.logb 10 v with hldef
  have hlow : (-6 : ℝ) < l := by
    have h16 : (1e-6 : ℝ) = (10 : ℝ) ^ (-6 : ℝ) := by
      rw [show (-6 : ℝ) = ((-6 : ℤ) : ℝ) by norm_num, Real.rpow_intCast]
      norm_num
    have hmono := Real.logb_lt_logb (by norm_num : (1 : ℝ) < 10)
      (by norm_num : (0 : ℝ) < 1e-6) h1
    rw [h16, Real.logb_rpow (by norm_num) (by norm_num)] at hmono
    exact hmono
  have hup : l < 1199 / 200 :=
    (Real.logb_lt_iff_lt_rpow (by norm_num) hv).mpr h2
  have hv6 : v < 1e6 := by
    have h6 : (1e6 : ℝ) = (10 : ℝ) ^ (6 : ℝ) := by
      rw [show (6 : ℝ) = ((6 : ℤ) : ℝ) by norm_num, Real.rpow_intCast]
      norm_num
    have hlt : (10 : ℝ) ^ ((1199 : ℝ) / 200) < 10 ^ (6 : ℝ) := by
      rw [Real.rpow_lt_rpow_left_iff (by norm_num)]
      norm_num
    rw [h6]
    exact h2.trans hlt
  set m := ⌊200 * (l + 6)⌋ with hmdef
  have hm0 : 0 ≤ m := Int.floor_nonneg.mpr (by linarith)
  have hmle : (m : ℝ) ≤ 200 * (l + 6) := Int.floor_le _
  have hmlt : 200 * (l + 6) < (m : ℝ) + 1 := Int.lt_floor_add_one _
  have hm_up : m ≤ 2398 := by
    have harg : 200 * (l + 6) < ((2399 : ℤ) : ℝ) := by push_cast; linarith
    have := Int.floor_lt.mpr harg
    omega
  have hseed : calculate_bin_number_est l = ⌊(l + 6) / 12 * 2401⌋ :=
    seed_eq l hlow.le
  have hseed_nonneg : 0 ≤ calculate_bin_number_est l := by
    rw [hseed]
    exact Int.floor_nonneg.mpr
      (mul_nonneg (div_nonneg (by linarith) (by norm_num)) (by norm_num))
  have hseed_le : calculate_bin_number_est l ≤ m + 1 := by
    rw [hseed]
    have hx12 : l + 6 < 12 := by linarith
    have hsplit : (l + 6) / 12 * 2401 = 200 * (l + 6) + (l + 6) / 12 := by
      ring
    have hfrac : (l + 6) / 12 < 1 :=
      (div_lt_one (by norm_num)).mpr hx12
    have harg : (l + 6) / 12 * 2401 < ((m + 2 : ℤ) : ℝ) := by
      push_cast
      rw [hsplit]
      linarith
    have := Int.floor_lt.mpr harg
    omega
  have hall : ∀ i, i < m.toNat + 2 → bins i ≤ v := by
    intro i hi
    rcases Nat.eq_zero_or_pos i with h0 | hpos
    · subst h0
      rw [bins, if_pos rfl]
      exact hv.le
    · rw [bins_le_iff v hv i (by omega)]
      have hi' : (i : ℝ) ≤ (m : ℝ) + 1 := by
        have hz : (i : ℤ) ≤ m + 1 := by omega
        exact_mod_cast hz
      linarith
  have hjv : v < bins (m.toNat + 2) := by
    rw [lt_bins_iff v hv _ (by omega)]
    have hcast : ((m.toNat : ℕ) : ℝ) = (m : ℝ) := by
      exact_mod_cast Int.toNat_of_nonneg hm0
    push_cast
    rw [hcast]
    linarith
  have hloop := bin_loop_some v (m.toNat + 2)
    (by unfold number_of_bins; omega) hjv hall 2402
    (calculate_bin_number_est l).toNat (by omega) (by omega)
  refine ⟨m.toNat + 1, ?_, hall _ (by omega), hjv⟩
  rw [parse_outputs, if_pos ⟨h1, hv6⟩, ← hldef, hloop]
  rfl

/-- C1 counterexample: the output value 999999 BTC passes the guard
`1e-6 < v < 1e6`, but every edge of the 2401-entry list is at most
999999, so the advance loop runs off the end of the list and raises
`IndexError` instead of returning a bin. -/
theorem c1_top_edge_index_error : parse_outputs 999999 = .indexError := by
  have hv : (0 : ℝ) < 999999 := by norm_num
  have hlogb : (1199 : ℝ) / 200 ≤ Real.logb 10 999999 :=
    (Real.le_logb_iff_rpow_le (by norm_num) hv).mpr last_edge_le
  have hall : ∀ i, i < number_of_bins → bins i ≤ 999999 := by
    intro i hi
    rcases Nat.eq_zero_or_pos i with h0 | hpos
    · subst h0
      rw [bins, if_pos rfl]
      norm_num
    · rw [bins_le_iff _ hv i (by omega)]
      have hle : (i : ℝ) ≤ 2400 := by
        have : i ≤ 2400 := by unfold number_of_bins at hi; omega
        exact_mod_cast this
      linarith
  have hnone := bin_loop_none 999999 hall 2402
    (calculate_bin_number_est (Real.logb 10 999999)).toNat
    (by unfold number_of_bins; omega)
  rw [parse_outputs, if_pos ⟨by norm_num, by norm_num⟩, hnone]

/-- C1 witness: the value 10 BTC is binned and bracketed by its edges. -/
theorem c1_bin_search_witness :
    (1e-6 : ℝ) < 10 ∧ (10 : ℝ) < (10 : ℝ) ^ ((1199 : ℝ) / 200) ∧
    ∃ b, parse_outputs 10 = .binned b ∧ bins b ≤ 10 ∧
      (10 : ℝ) < bins (b + 1) := by
  have h2 : (10 : ℝ) < (10 : ℝ) ^ ((1199 : ℝ) / 200) := by
    have hlt : (10 : ℝ) ^ (1 : ℝ) < 10 ^ ((1199 : ℝ) / 200) := by
      rw [Real.rpow_lt_rpow_left_iff (by norm_num)]
      norm_num
    rwa [Real.rpow_one] at hlt
  exact ⟨by norm_num, h2,
    c1_bin_search_correct_below_top_edge 10 (by norm_num) h2⟩

end Oracle
